import Mathlib

/-!
Shallow embedding of the conversational core of `nlp_chatbot_engine`:
the intent classifier (`intents/intent_classifier.py`), the entity
extractor (`entities/entity_extractor.py`), the context manager
(`memory/context_manager.py`) and the orchestrating engine
(`core/engine.py`).

Modelling conventions:
* Python `dict` (insertion ordered, unique keys) is an association list
  `List (String × α)`; `dictInsert` keeps the position of an existing key
  and appends a new key at the end, exactly like Python assignment.
* `defaultdict(list)` extension is `dictExtend`; the `defaultdict(dict)`
  read that inserts an empty mapping on a miss is `ddGet`.
* Python floats are modelled as `ℚ`; every score the classifier builds is
  a sum of the literals 2.0, 1.0 and 0.3, which are exact in both models.
* `datetime.now()` is an explicit `now : ℚ` argument threaded through the
  context-manager operations.
* A compiled regex (`re.compile(p, re.IGNORECASE)`) is a `Regex` syntax
  tree; the matcher implements Python search semantics (leftmost match,
  greedy backtracking, case-insensitive because both call sites compile
  with `re.IGNORECASE`).
-/

set_option autoImplicit false

namespace NlpChatbot

/-- An extracted entity: the dict `type / value / start / end` built by
`EntityExtractor.extract`; entities coming from custom extractors may lack
the offsets. -/
structure Entity where
  etype : String
  value : String
  startPos : Option Nat
  endPos : Option Nat
deriving DecidableEq, Repr

/-- A value stored in a conversation context mapping: a string or an
entity list (the two kinds of value the engine writes). -/
inductive Value where
  | str (s : String)
  | ents (es : List Entity)
deriving DecidableEq, Repr

/-- A per-user context mapping, a Python `dict` of string keys. -/
abbrev Ctx := List (String × Value)

/-- Python `d[k]` lookup (first binding wins; keys are unique in states
reachable through the operations). -/
def dictFind {α : Type} (d : List (String × α)) (k : String) : Option α :=
  match d with
  | [] => none
  | (k2, v) :: rest => if k2 = k then some v else dictFind rest k

/-- The keys of a dict, in insertion order. -/
def dictKeys {α : Type} (d : List (String × α)) : List String :=
  d.map Prod.fst

/-- Python `k in d`: the key lookup succeeds. -/
def dictMem {α : Type} (d : List (String × α)) (k : String) : Bool :=
  (dictFind d k).isSome

/-- Python `d[k] = v`: overwrite in place, or append a fresh key. -/
def dictInsert {α : Type} (d : List (String × α)) (k : String) (v : α) :
    List (String × α) :=
  match d with
  | [] => [(k, v)]
  | (k2, v2) :: rest =>
      if k2 = k then (k2, v) :: rest else (k2, v2) :: dictInsert rest k v

/-- `defaultdict(list)`: `d[k].extend(vs)` / `d[k].append v`. -/
def dictExtend {α : Type} (d : List (String × List α)) (k : String)
    (vs : List α) : List (String × List α) :=
  match d with
  | [] => [(k, vs)]
  | (k2, v2) :: rest =>
      if k2 = k then (k2, v2 ++ vs) :: rest else (k2, v2) :: dictExtend rest k vs

/-- Python `del d[k]` (for unique-key dicts). -/
def dictRemove {α : Type} (d : List (String × α)) (k : String) :
    List (String × α) :=
  d.filter (fun p => p.1 ≠ k)

/-- Lookup in a dict of lists, defaulting to the empty list. -/
def dictFindD {α : Type} (d : List (String × List α)) (k : String) : List α :=
  (dictFind d k).getD []

/-- Python `dict.update`: key-wise insertion of every binding of `upd`. -/
def dictUpdateMany (d : Ctx) (upd : Ctx) : Ctx :=
  upd.foldl (fun acc p => dictInsert acc p.1 p.2) d

/-- Python substring test `needle in hay` on character lists. -/
def startsWithSeq : List Char → List Char → Bool
  | _, [] => true
  | [], _ :: _ => false
  | h :: t, h2 :: t2 => h = h2 && startsWithSeq t t2

/-- Python `needle in hay` (contiguous substring containment). -/
def containsSub : List Char → List Char → Bool
  | [], needle => needle.isEmpty
  | h :: t, needle => startsWithSeq (h :: t) needle || containsSub t needle

/-- `str.lower` restricted to the ASCII case mapping. -/
def lowerStr (s : String) : String :=
  String.mk (s.data.map Char.toLower)

/-- Swap the ASCII case of a character (used for `re.IGNORECASE`). -/
def swapCase (c : Char) : Char :=
  if c.isLower then c.toUpper else if c.isUpper then c.toLower else c

/-- Syntax of the regular expressions the repository compiles: character
classes (covering literals, `\d` and bracket classes), concatenation,
alternation, greedy `*`, greedy `?` and the word-boundary assertion
`\b`.  Counted repetitions are expanded by the builders below. -/
inductive Regex where
  | eps
  | cls (f : Char → Bool)
  | cat (r1 r2 : Regex)
  | alt (r1 r2 : Regex)
  | star (r : Regex)
  | opt (r : Regex)
  | wordB

/-- `\w` for the `\b` assertion: letters, digits and underscore. -/
def isWordChar (c : Char) : Bool :=
  c.isAlphanum || c = '_'

/-- Whether position `i` of `s` holds a word character. -/
def wordCharAt (s : List Char) (i : Nat) : Bool :=
  match s[i]? with
  | some c => isWordChar c
  | none => false

/-- Python `\b`: the two sides of position `i` disagree on wordness. -/
def boundaryAt (s : List Char) (i : Nat) : Bool :=
  (decide (i ≠ 0) && wordCharAt s (i - 1)) != wordCharAt s i

/-- Class membership under `re.IGNORECASE`: the character or its
case-swapped form belongs to the class. -/
def clsMatch (f : Char → Bool) (c : Char) : Bool :=
  f c || f (swapCase c)

/-- Greedy iteration of a `star` body whose match ends at position `j`
are given by `body`: prefer more iterations, skip empty-width iterations
(as Python's engine does), and stop after `fuel` rounds.  Every kept
iteration advances the position, so `length s + 1` rounds of fuel are
enough for any body. -/
def starEnds (body : Nat → List Nat) : Nat → Nat → List Nat
  | 0, i => [i]
  | fuel + 1, i =>
      ((body i).filter (fun j => j ≠ i)).flatMap
        (fun j => starEnds body fuel j) ++ [i]

/-- All end positions of a match of `r` in `s` starting at `i`, listed in
the order a backtracking engine tries them (greedy first); the head is
the match Python's engine returns. -/
def matchEnds (s : List Char) : Regex → Nat → List Nat
  | .eps, i => [i]
  | .cls f, i =>
      match s[i]? with
      | some c => if clsMatch f c then [i + 1] else []
      | none => []
  | .cat r1 r2, i =>
      (matchEnds s r1 i).flatMap (fun j => matchEnds s r2 j)
  | .alt r1 r2, i => matchEnds s r1 i ++ matchEnds s r2 i
  | .opt r, i => matchEnds s r i ++ [i]
  | .wordB, i => if boundaryAt s i then [i] else []
  | .star r, i => starEnds (fun j => matchEnds s r j) (s.length + 1) i

/-- The end of the match attempt at position `i`, if any: the first
alternative of the backtracking order. -/
def matchAt (r : Regex) (s : List Char) (i : Nat) : Option Nat :=
  (matchEnds s r i).head?

/-- Truthiness of Python `pattern.search(text)`. -/
def regexSearch (r : Regex) (s : List Char) : Bool :=
  (List.range (s.length + 1)).any (fun i => (matchAt r s i).isSome)

/-- Scanning loop of `pattern.finditer`: leftmost matches, resuming after
each match (advancing one position past an empty match). -/
def findIterFrom (r : Regex) (s : List Char) : Nat → Nat → List (Nat × Nat)
  | 0, _ => []
  | fuel + 1, i =>
      if i > s.length then []
      else
        match matchAt r s i with
        | some j => (i, j) :: findIterFrom r s fuel (max j (i + 1))
        | none => findIterFrom r s fuel (i + 1)

/-- Python `pattern.finditer(text)` as the list of `(start, end)` spans. -/
def findIter (r : Regex) (s : List Char) : List (Nat × Nat) :=
  findIterFrom r s (s.length + 1) 0

/-- Literal character (case folding happens in `clsMatch`). -/
def rchar (c : Char) : Regex :=
  .cls (fun x => x = c)

/-- Literal character sequence. -/
def rseq (cs : List Char) : Regex :=
  cs.foldr (fun c acc => .cat (rchar c) acc) .eps

/-- Concatenation of a list of regexes. -/
def rcat (rs : List Regex) : Regex :=
  rs.foldr .cat .eps

/-- Greedy `+`. -/
def rplus (r : Regex) : Regex :=
  .cat r (.star r)

/-- `r{n}`. -/
def repExact (r : Regex) : Nat → Regex
  | 0 => .eps
  | n + 1 => .cat r (repExact r n)

/-- `r{0,n}` with the greedy preference (more repetitions first). -/
def repUpTo (r : Regex) : Nat → Regex
  | 0 => .eps
  | n + 1 => .opt (.cat r (repUpTo r n))

/-- `r{m,n}`. -/
def repRange (r : Regex) (m n : Nat) : Regex :=
  .cat (repExact r m) (repUpTo r (n - m))

/-- `r{m,}`. -/
def repAtLeast (r : Regex) (m : Nat) : Regex :=
  .cat (repExact r m) (.star r)

/-- `[A-Za-z0-9._%+-]` of the default email pattern. -/
def emailLocalClass (c : Char) : Bool :=
  c.isAlpha || c.isDigit || c = '.' || c = '_' || c = '%' || c = '+' || c = '-'

/-- `[A-Za-z0-9.-]` of the default email pattern. -/
def emailDomainClass (c : Char) : Bool :=
  c.isAlpha || c.isDigit || c = '.' || c = '-'

/-- `[A-Z|a-z]` of the default email pattern (the literal `|` is part of
the class in the source). -/
def emailTldClass (c : Char) : Bool :=
  c.isAlpha || c = '|'

/-- `\d`. -/
def digitClass (c : Char) : Bool :=
  c.isDigit

/-- `[-.]` of the default phone pattern. -/
def dashDotClass (c : Char) : Bool :=
  c = '-' || c = '.'

/-- `[-a-zA-Z0-9@:%._\+~#=]` of the default url pattern. -/
def urlBodyClass (c : Char) : Bool :=
  c = '-' || c.isAlpha || c.isDigit || c = '@' || c = ':' || c = '%' ||
    c = '.' || c = '_' || c = '+' || c = '~' || c = '#' || c = '='

/-- `[a-zA-Z0-9()]` of the default url pattern. -/
def urlTldClass (c : Char) : Bool :=
  c.isAlpha || c.isDigit || c = '(' || c = ')'

/-- `[-a-zA-Z0-9()@:%_\+.~#?&/=]` of the default url pattern. -/
def urlTailClass (c : Char) : Bool :=
  c = '-' || c.isAlpha || c.isDigit || c = '(' || c = ')' || c = '@' ||
    c = ':' || c = '%' || c = '_' || c = '+' || c = '.' || c = '~' ||
    c = '#' || c = '?' || c = '&' || c = '/' || c = '='

/-- The slash-or-dash bracket class of the default date pattern. -/
def slashDashClass (c : Char) : Bool :=
  c = '/' || c = '-'

/-- Default pattern `\b[A-Za-z0-9._%+-]+@[A-Za-z0-9.-]+\.[A-Z|a-z]{2,}\b`. -/
def emailRegex : Regex :=
  rcat [.wordB, rplus (.cls emailLocalClass), rchar '@',
    rplus (.cls emailDomainClass), rchar '.',
    repAtLeast (.cls emailTldClass) 2, .wordB]

/-- Default pattern `\b\d{3}[-.]?\d{3}[-.]?\d{4}\b`. -/
def phoneRegex : Regex :=
  rcat [.wordB, repExact (.cls digitClass) 3, .opt (.cls dashDotClass),
    repExact (.cls digitClass) 3, .opt (.cls dashDotClass),
    repExact (.cls digitClass) 4, .wordB]

/-- Default url pattern
`https?://(?:www\.)?[-a-zA-Z0-9@:%._\+~#=]{1,256}\.[a-zA-Z0-9()]{1,6}\b(?:[-a-zA-Z0-9()@:%_\+.~#?&/=]*)`. -/
def urlRegex : Regex :=
  rcat [rseq "http".data, .opt (rchar 's'), rseq "://".data,
    .opt (rseq "www.".data), repRange (.cls urlBodyClass) 1 256,
    rchar '.', repRange (.cls urlTldClass) 1 6, .wordB,
    .star (.cls urlTailClass)]

/-- Default pattern `\b\d+(?:\.\d+)?\b`. -/
def numberRegex : Regex :=
  rcat [.wordB, rplus (.cls digitClass),
    .opt (.cat (rchar '.') (rplus (.cls digitClass))), .wordB]

/-- Default date pattern: `\b`, one or two digits, a slash or dash, one
or two digits, a slash or dash, two to four digits, `\b`. -/
def dateRegex : Regex :=
  rcat [.wordB, repRange (.cls digitClass) 1 2, .cls slashDashClass,
    repRange (.cls digitClass) 1 2, .cls slashDashClass,
    repRange (.cls digitClass) 2 4, .wordB]

/-- Output of a custom extractor function: the dict case (with its
optional offsets) or the bare, non-dict case. -/
inductive CustomOut where
  | ent (value : String) (startPos endPos : Option Nat)
  | bare (value : String)

/-- State of `EntityExtractor`: the ordered dict of compiled patterns per
type, and the ordered dict of custom extractor functions per type. -/
structure EntityExtractor where
  patterns : List (String × List Regex)
  extractors : List (String × (String → List CustomOut))

/-- `EntityExtractor.add_pattern`: append one more compiled pattern under
`entityType` (creating the list when the type is new). -/
def addPattern (ex : EntityExtractor) (entityType : String) (r : Regex) :
    EntityExtractor :=
  { ex with patterns := dictExtend ex.patterns entityType [r] }

/-- `EntityExtractor.add_custom_extractor`: at most one function per
type, re-registration replaces. -/
def addCustomExtractor (ex : EntityExtractor) (entityType : String)
    (f : String → List CustomOut) : EntityExtractor :=
  { ex with extractors := dictInsert ex.extractors entityType f }

/-- A freshly constructed `EntityExtractor()` after
`_register_default_extractors`. -/
def mkEntityExtractor : EntityExtractor :=
  addPattern (addPattern (addPattern (addPattern (addPattern
    ⟨[], []⟩ "email" emailRegex) "phone" phoneRegex) "url" urlRegex)
    "number" numberRegex) "date" dateRegex

/-- Python slice `s[i:j]`. -/
def sliceOf (s : List Char) (i j : Nat) : String :=
  String.mk ((s.drop i).take (j - i))

/-- The pattern-based pass of `extract`: every pattern of every type, in
dict order, appending one entity per `finditer` span. -/
def patternEntities (ex : EntityExtractor) (text : String) : List Entity :=
  ex.patterns.foldl (fun acc p =>
    p.2.foldl (fun acc2 r =>
      acc2 ++ (findIter r text.data).map (fun m =>
        ⟨p.1, sliceOf text.data m.1 m.2, some m.1, some m.2⟩)) acc) []

/-- The custom-extractor pass of `extract`: each function's outputs are
tagged with the type it is registered under; non-dict outputs get no
offsets. -/
def customEntities (ex : EntityExtractor) (text : String)
    (init : List Entity) : List Entity :=
  ex.extractors.foldl (fun acc p =>
    acc ++ (p.2 text).map (fun o =>
      match o with
      | .ent v s e => ⟨p.1, v, s, e⟩
      | .bare v => ⟨p.1, v, none, none⟩)) init

/-- The sort key `x.get("start", 0)`. -/
def startKey (e : Entity) : Nat :=
  e.startPos.getD 0

/-- Stable insertion used to model Python's stable `list.sort(key=...)`:
an element is placed before the first existing element with a key that is
not smaller. -/
def insertSorted (e : Entity) : List Entity → List Entity
  | [] => [e]
  | x :: xs =>
      if startKey e ≤ startKey x then e :: x :: xs else x :: insertSorted e xs

/-- Stable sort by `startKey` (Python's `list.sort` is stable). -/
def sortByStart (l : List Entity) : List Entity :=
  l.foldr insertSorted []

/-- `EntityExtractor.extract`: pattern pass, custom pass, stable sort by
the `start` key (missing `start` counts as 0).  The `intent` hint is
accepted but unused, as in the source. -/
def extract (ex : EntityExtractor) (text : String) (_intentHint : Option String) :
    List Entity :=
  sortByStart (customEntities ex text (patternEntities ex text))

/-- `EntityExtractor.extract_by_type`. -/
def extractByType (ex : EntityExtractor) (text : String)
    (entityType : String) : List String :=
  ((extract ex text none).filter (fun e => e.etype = entityType)).map
    Entity.value

/-- `EntityExtractor.has_entity_type`. -/
def hasEntityType (ex : EntityExtractor) (text : String)
    (entityType : String) : Bool :=
  (extractByType ex text entityType).length > 0

/-- The per-intent definition stored in `IntentClassifier.intents` (the
raw keyword and pattern lists; patterns are modelled by their compiled
form). -/
structure IntentDef where
  keywords : List String
  patterns : List Regex

/-- State of `IntentClassifier`: the `intents` dict (replaced wholesale
on re-registration), the `keywords` and `patterns` defaultdicts (extended
on re-registration, and the only state `classify` reads), the `trained`
flag and the default intent. -/
structure IntentClassifier where
  intents : List (String × IntentDef)
  keywords : List (String × List String)
  patterns : List (String × List Regex)
  trained : Bool
  defaultIntent : String

/-- A freshly constructed `IntentClassifier()`. -/
def mkIntentClassifier : IntentClassifier :=
  ⟨[], [], [], false, "unknown"⟩

/-- `IntentClassifier.add_intent`.  `keywords=None` and `keywords=[]`
behave identically in the source (both falsy), so both are the empty
list here; empty lists leave the defaultdicts untouched. -/
def addIntent (c : IntentClassifier) (intent : String)
    (keywords : List String) (patterns : List Regex) : IntentClassifier :=
  { intents := dictInsert c.intents intent ⟨keywords, patterns⟩,
    keywords :=
      if keywords.isEmpty then c.keywords
      else dictExtend c.keywords intent keywords,
    patterns :=
      if patterns.isEmpty then c.patterns
      else dictExtend c.patterns intent patterns,
    trained := c.trained,
    defaultIntent := c.defaultIntent }

/-- `IntentClassifier.get_intents`. -/
def getIntents (c : IntentClassifier) : List String :=
  dictKeys c.intents

/-- `scores[intent] += d` on the `defaultdict(float)` score map,
preserving insertion order (a fresh intent is appended). -/
def addScore (scores : List (String × ℚ)) (intent : String) (d : ℚ) :
    List (String × ℚ) :=
  match scores with
  | [] => [(intent, d)]
  | (k, v) :: rest =>
      if k = intent then (k, v + d) :: rest
      else (k, v) :: addScore rest intent d

/-- The inner scoring loop shared by the pattern and keyword passes of
`classify`: add weight `w` to intent `k` once per item satisfying
`cond`. -/
def scoreFold {α : Type} (w : ℚ) (cond : α → Bool) (k : String)
    (items : List α) (sc : List (String × ℚ)) : List (String × ℚ) :=
  items.foldl (fun sc2 it => if cond it then addScore sc2 k w else sc2) sc

/-- The outer scoring loop of `classify`: iterate a defaultdict of item
lists in insertion order, running the inner loop for each intent. -/
def dictScoreFold {α : Type} (w : ℚ) (cond : α → Bool)
    (d : List (String × List α)) (sc : List (String × ℚ)) :
    List (String × ℚ) :=
  d.foldl (fun sc2 p => scoreFold w cond p.1 p.2 sc2) sc

/-- The pattern pass of `classify`: each matching pattern adds 2.0 to its
intent, iterating the `patterns` dict in insertion order. -/
def patternScores (c : IntentClassifier) (text : String) :
    List (String × ℚ) :=
  dictScoreFold 2 (fun r => regexSearch r text.data) c.patterns []

/-- The keyword pass of `classify`: each keyword occurring as a
case-insensitive substring adds 1.0 to its intent. -/
def keywordScores (c : IntentClassifier) (textLower : String)
    (init : List (String × ℚ)) : List (String × ℚ) :=
  dictScoreFold 1 (fun kw => containsSub textLower.data (lowerStr kw).data)
    c.keywords init

/-- The score map after the pattern and keyword passes of `classify`. -/
def preContextScores (c : IntentClassifier) (text : String) :
    List (String × ℚ) :=
  keywordScores c (lowerStr text) (patternScores c text)

/-- The context pass of `classify`: if the context is truthy, holds
`last_intent`, and that intent is already a key of the score map, add the
0.3 continuity bonus. -/
def contextBoost (scores : List (String × ℚ)) (context : Option Ctx) :
    List (String × ℚ) :=
  match context with
  | none => scores
  | some ctx =>
      if ctx.isEmpty then scores
      else
        match dictFind ctx "last_intent" with
        | some (Value.str li) =>
            if dictMem scores li then addScore scores li (3 / 10) else scores
        | some _ => scores
        | none => scores

/-- The full score map `classify` builds for `text` and `context`. -/
def classifyScores (c : IntentClassifier) (text : String)
    (context : Option Ctx) : List (String × ℚ) :=
  contextBoost (preContextScores c text) context

/-- The scanning loop of Python `max(..., key=lambda x: x[1])`: keep the
current best, replacing it only on a strictly larger value, so the first
maximal item wins. -/
def pyFold (x : String × ℚ) (xs : List (String × ℚ)) : String × ℚ :=
  xs.foldl (fun best p => if best.2 < p.2 then p else best) x

/-- Python `max(scores.items(), key=lambda x: x[1])`: the first item of
maximal value in iteration order (`none` on an empty dict, where the
source would not call `max`). -/
def pyMax (l : List (String × ℚ)) : Option (String × ℚ) :=
  match l with
  | [] => none
  | x :: xs => some (pyFold x xs)

/-- `IntentClassifier.classify`, returning the `(intent, confidence)`
pair of the result dict. -/
def classify (c : IntentClassifier) (text : String) (context : Option Ctx) :
    String × ℚ :=
  match pyMax (classifyScores c text context) with
  | some best => (best.1, min (best.2 / 3) 1)
  | none => (c.defaultIntent, 0)

/-- State of `ContextManager`: the `contexts` defaultdict, the
`timestamps` dict (times as rationals) and the optional timeout in
seconds. -/
structure ContextManager where
  contexts : List (String × Ctx)
  timestamps : List (String × ℚ)
  contextTimeout : Option Nat

/-- `ContextManager(context_timeout=t)`. -/
def mkContextManager (t : Option Nat) : ContextManager :=
  ⟨[], [], t⟩

/-- The expiry test of `get_context`: a truthy timeout (`None` and `0`
are both falsy), a recorded last access, and strictly more than the
timeout elapsed. -/
def expiryDue (m : ContextManager) (userId : String) (now : ℚ) : Bool :=
  match m.contextTimeout with
  | none => false
  | some t =>
      if t = 0 then false
      else
        match dictFind m.timestamps userId with
        | some last => decide (now - last > (t : ℚ))
        | none => false

/-- `ContextManager.clear_context`: the user's mapping is cleared in
place (the key survives with an empty mapping) and the timestamp entry is
deleted. -/
def clearContext (m : ContextManager) (userId : String) : ContextManager :=
  { m with
    contexts :=
      if dictMem m.contexts userId then dictInsert m.contexts userId []
      else m.contexts,
    timestamps := dictRemove m.timestamps userId }

/-- A `defaultdict(dict)` read: return the stored mapping, inserting an
empty one for an unseen key. -/
def ddGet (d : List (String × Ctx)) (k : String) :
    List (String × Ctx) × Ctx :=
  match dictFind d k with
  | some v => (d, v)
  | none => (d ++ [(k, [])], [])

/-- `ContextManager.get_context`: lazily expire, refresh the last-touch
timestamp, and return a copy of the (possibly freshly inserted) mapping. -/
def getContext (m : ContextManager) (userId : String) (now : ℚ) :
    ContextManager × Ctx :=
  let m1 := if expiryDue m userId now then clearContext m userId else m
  let m2 := { m1 with timestamps := dictInsert m1.timestamps userId now }
  let dv := ddGet m2.contexts userId
  ({ m2 with contexts := dv.1 }, dv.2)

/-- `ContextManager.update_context`: key-wise merge into (or wholesale
replacement of) the user's mapping, then refresh the timestamp. -/
def updateContext (m : ContextManager) (userId : String) (updates : Ctx)
    (merge : Bool) (now : ℚ) : ContextManager :=
  let contexts2 :=
    if merge then
      let dv := ddGet m.contexts userId
      dictInsert dv.1 userId (dictUpdateMany dv.2 updates)
    else dictInsert m.contexts userId (dictUpdateMany [] updates)
  { m with contexts := contexts2,
           timestamps := dictInsert m.timestamps userId now }

/-- `ContextManager.set_context_value`. -/
def setContextValue (m : ContextManager) (userId key : String) (v : Value)
    (now : ℚ) : ContextManager :=
  let dv := ddGet m.contexts userId
  { m with contexts := dictInsert dv.1 userId (dictInsert dv.2 key v),
           timestamps := dictInsert m.timestamps userId now }

/-- `ContextManager.get_context_value`: a `defaultdict` read (inserting
an empty mapping for an unseen user) followed by `dict.get`; no
timestamp is touched and no expiry is checked. -/
def getContextValue (m : ContextManager) (userId key : String)
    (default : Value) : ContextManager × Value :=
  let dv := ddGet m.contexts userId
  ({ m with contexts := dv.1 }, (dictFind dv.2 key).getD default)

/-- `ContextManager.has_context`: the user is a key and the stored
mapping is non-empty.  No expiry check and no state change. -/
def hasContext (m : ContextManager) (userId : String) : Bool :=
  match dictFind m.contexts userId with
  | some ctx => !ctx.isEmpty
  | none => false

/-- `ContextManager.delete_context_key`. -/
def deleteContextKey (m : ContextManager) (userId key : String) :
    ContextManager :=
  match dictFind m.contexts userId with
  | some ctx =>
      if dictMem ctx key then
        { m with contexts := dictInsert m.contexts userId (dictRemove ctx key) }
      else m
  | none => m

/-- `ContextManager.get_all_users`: every key of `contexts`, including
users holding an empty mapping. -/
def getAllUsers (m : ContextManager) : List String :=
  dictKeys m.contexts

/-- `ContextManager.clear_all_contexts`. -/
def clearAllContexts (m : ContextManager) : ContextManager :=
  ⟨[], [], m.contextTimeout⟩

/-- An intent handler: called with the message, the extracted entities
and the context snapshot, returning the response value. -/
abbrev Handler := String → List Entity → Ctx → Value

/-- State of `ChatbotEngine`. -/
structure ChatbotEngine where
  intentClassifier : IntentClassifier
  entityExtractor : EntityExtractor
  contextManager : ContextManager
  handlers : List (String × Handler)

/-- `ChatbotEngine.register_intent_handler`: dict assignment, so the last
registration for a name wins. -/
def registerIntentHandler (e : ChatbotEngine) (intent : String)
    (h : Handler) : ChatbotEngine :=
  { e with handlers := dictInsert e.handlers intent h }

/-- The result dict of `process_message`; `response` is present exactly
when it is `some`. -/
structure ProcessResult where
  message : String
  intent : String
  confidence : ℚ
  entities : List Entity
  context : Ctx
  response : Option Value

/-- `ChatbotEngine.process_message`: fetch context, classify with it,
extract entities with the intent hint, merge the turn data into the
stored context, and invoke the registered handler (if any) on the
pre-update context snapshot. -/
def processMessage (e : ChatbotEngine) (message userId : String)
    (now : ℚ) : ChatbotEngine × ProcessResult :=
  let fetched := getContext e.contextManager userId now
  let ir := classify e.intentClassifier message (some fetched.2)
  let entities := extract e.entityExtractor message (some ir.1)
  let cm2 := updateContext fetched.1 userId
    [("last_message", Value.str message), ("last_intent", Value.str ir.1),
     ("entities", Value.ents entities)] true now
  let response :=
    match dictFind e.handlers ir.1 with
    | some h => some (h message entities fetched.2)
    | none => none
  ({ e with contextManager := cm2 },
   ⟨message, ir.1, ir.2, entities, fetched.2, response⟩)

theorem dictFind_dictInsert_self {α : Type} (d : List (String × α)) (k : String)
    (v : α) : dictFind (dictInsert d k v) k = some v := by
  induction d with
  | nil => simp [dictInsert, dictFind]
  | cons p rest ih =>
      obtain ⟨k2, v2⟩ := p
      by_cases h : k2 = k
      · simp [dictInsert, dictFind, h]
      · simp [dictInsert, dictFind, h, ih]

theorem dictFind_dictInsert_ne {α : Type} (d : List (String × α)) (k j : String)
    (v : α) (h : j ≠ k) : dictFind (dictInsert d k v) j = dictFind d j := by
  induction d with
  | nil =>
      have hkj : ¬ (k = j) := fun hh => h hh.symm
      simp [dictInsert, dictFind, hkj]
  | cons p rest ih =>
      obtain ⟨k2, v2⟩ := p
      by_cases hk : k2 = k
      · have hkj : ¬ (k = j) := fun hh => h hh.symm
        simp [dictInsert, dictFind, hk, hkj]
      · by_cases hj : k2 = j
        · simp [dictInsert, dictFind, hk, hj, h]
        · simp [dictInsert, dictFind, hk, hj, ih]

theorem dictFind_append_of_none {α : Type} (d d2 : List (String × α))
    (k : String) (h : dictFind d k = none) :
    dictFind (d ++ d2) k = dictFind d2 k := by
  induction d with
  | nil => simp
  | cons p rest ih =>
      obtain ⟨k2, v2⟩ := p
      by_cases hk : k2 = k
      · simp [dictFind, hk] at h
      · simp only [dictFind, hk, if_false] at h
        simp only [List.cons_append, dictFind, hk, if_false]
        exact ih h

theorem dictMem_false_find_none {α : Type} (d : List (String × α)) (k : String)
    (h : dictMem d k = false) : dictFind d k = none := by
  unfold dictMem at h
  rcases hf : dictFind d k with _ | v
  · rfl
  · rw [hf] at h
    cases h

theorem dictFind_mem {α : Type} (d : List (String × α)) (k : String) (v : α)
    (h : dictFind d k = some v) : (k, v) ∈ d := by
  induction d with
  | nil => simp [dictFind] at h
  | cons p rest ih =>
      obtain ⟨k2, v2⟩ := p
      by_cases hk : k2 = k
      · subst hk
        simp only [dictFind, if_pos rfl] at h
        cases h
        exact List.mem_cons_self _ _
      · simp only [dictFind, hk, if_false] at h
        exact List.mem_cons_of_mem _ (ih h)

theorem dictFind_addScore (s : List (String × ℚ)) (i j : String) (d : ℚ) :
    dictFind (addScore s i d) j =
      if j = i then some ((dictFind s j).getD 0 + d) else dictFind s j := by
  induction s with
  | nil =>
      by_cases h : j = i
      · subst h
        simp [addScore, dictFind]
      · have hne : ¬ (i = j) := fun hh => h hh.symm
        simp [addScore, dictFind, h, hne]
  | cons p rest ih =>
      obtain ⟨k2, v2⟩ := p
      by_cases hk : k2 = i
      · subst hk
        by_cases hj : k2 = j
        · subst hj
          simp [addScore, dictFind]
        · have hne : ¬ (j = k2) := fun hh => hj hh.symm
          simp [addScore, dictFind, hj, hne]
      · by_cases hj : k2 = j
        · subst hj
          simp [addScore, dictFind, hk]
        · simp [addScore, dictFind, hk, hj, ih]

theorem foldl_preserve {α β : Type} (P : α → Prop) (f : α → β → α)
    (l : List β) (init : α) (h0 : P init)
    (hstep : ∀ a b, b ∈ l → P a → P (f a b)) : P (l.foldl f init) := by
  induction l generalizing init with
  | nil => exact h0
  | cons b rest ih =>
      exact ih (f init b) (hstep init b (List.mem_cons_self _ _) h0)
        (fun a b2 hb2 => hstep a b2 (List.mem_cons_of_mem _ hb2))

theorem foldl_fix {α β : Type} (f : α → β → α) (l : List β) (init : α)
    (h : ∀ a b, b ∈ l → f a b = a) : l.foldl f init = init := by
  induction l generalizing init with
  | nil => rfl
  | cons b rest ih =>
      rw [List.foldl_cons, h init b (List.mem_cons_self _ _)]
      exact ih init (fun a b2 hb2 => h a b2 (List.mem_cons_of_mem _ hb2))

theorem pyFold_spec (xs : List (String × ℚ)) : ∀ x : String × ℚ,
    ∃ l1 l2,
      x :: xs = l1 ++ pyFold x xs :: l2 ∧
      (∀ q ∈ l1, q.2 < (pyFold x xs).2) ∧
      (∀ q ∈ x :: xs, q.2 ≤ (pyFold x xs).2) := by
  induction xs with
  | nil =>
      intro x
      refine ⟨[], [], rfl, by simp, ?_⟩
      intro q hq
      rw [List.mem_singleton] at hq
      subst hq
      exact le_refl _
  | cons y ys ih =>
      intro x
      by_cases hxy : x.2 < y.2
      · obtain ⟨l1, l2, heq, hlt, hle⟩ := ih y
        have hr : pyFold x (y :: ys) = pyFold y ys := by
          simp [pyFold, hxy]
        rw [hr]
        have hyr : y.2 ≤ (pyFold y ys).2 := hle y (List.mem_cons_self _ _)
        refine ⟨x :: l1, l2, ?_, ?_, ?_⟩
        · rw [List.cons_append, ← heq]
        · intro q hq
          rcases List.mem_cons.mp hq with h1 | h2
          · subst h1
            exact lt_of_lt_of_le hxy hyr
          · exact hlt q h2
        · intro q hq
          rcases List.mem_cons.mp hq with h1 | h2
          · subst h1
            exact le_of_lt (lt_of_lt_of_le hxy hyr)
          · exact hle q h2
      · obtain ⟨l1, l2, heq, hlt, hle⟩ := ih x
        have hr : pyFold x (y :: ys) = pyFold x ys := by
          simp [pyFold, hxy]
        rw [hr]
        have hyx : y.2 ≤ x.2 := le_of_not_lt hxy
        have hxr : x.2 ≤ (pyFold x ys).2 := hle x (List.mem_cons_self _ _)
        cases l1 with
        | nil =>
            simp only [List.nil_append] at heq
            injection heq with hx hys
            refine ⟨[], y :: ys, ?_, by simp, ?_⟩
            · rw [← hx]
              rfl
            · intro q hq
              rcases List.mem_cons.mp hq with h1 | h2
              · subst h1
                exact hxr
              · rcases List.mem_cons.mp h2 with h3 | h4
                · subst h3
                  exact le_trans hyx hxr
                · exact hle q (List.mem_cons_of_mem _ (hys ▸ h4))
        | cons a l1' =>
            simp only [List.cons_append] at heq
            injection heq with ha htail
            refine ⟨x :: y :: l1', l2, ?_, ?_, ?_⟩
            · rw [List.cons_append, List.cons_append, ← htail]
            · intro q hq
              rcases List.mem_cons.mp hq with h1 | h2
              · subst h1
                have := hlt a (List.mem_cons_self _ _)
                rw [← ha] at this
                exact this
              · rcases List.mem_cons.mp h2 with h3 | h4
                · subst h3
                  have hxlt := hlt a (List.mem_cons_self _ _)
                  rw [← ha] at hxlt
                  exact lt_of_le_of_lt hyx hxlt
                · exact hlt q (List.mem_cons_of_mem _ h4)
            · intro q hq
              rcases List.mem_cons.mp hq with h1 | h2
              · subst h1
                exact hxr
              · rcases List.mem_cons.mp h2 with h3 | h4
                · subst h3
                  exact le_trans hyx hxr
                · exact hle q (List.mem_cons_of_mem _ h4)

theorem pyMax_spec (l : List (String × ℚ)) (p : String × ℚ)
    (h : pyMax l = some p) :
    ∃ l1 l2, l = l1 ++ p :: l2 ∧ (∀ q ∈ l1, q.2 < p.2) ∧
      ∀ q ∈ l, q.2 ≤ p.2 := by
  cases l with
  | nil => cases h
  | cons x xs =>
      simp only [pyMax, Option.some.injEq] at h
      subst h
      exact pyFold_spec xs x

theorem pyMax_none_iff (l : List (String × ℚ)) : pyMax l = none ↔ l = [] := by
  cases l with
  | nil => simp [pyMax]
  | cons x xs => simp [pyMax]

theorem addScore_pos (s : List (String × ℚ)) (i : String) (d : ℚ)
    (hs : ∀ p ∈ s, 0 < p.2) (hd : 0 < d) : ∀ p ∈ addScore s i d, 0 < p.2 := by
  induction s with
  | nil =>
      intro p hp
      simp only [addScore, List.mem_singleton] at hp
      subst hp
      exact hd
  | cons q rest ih =>
      intro p hp
      by_cases hq : q.1 = i
      · simp only [addScore, hq, if_true] at hp
        rcases List.mem_cons.mp hp with h1 | h2
        · subst h1
          have := hs q (List.mem_cons_self _ _)
          exact add_pos this hd
        · exact hs p (List.mem_cons_of_mem _ h2)
      · simp only [addScore, hq, if_false] at hp
        rcases List.mem_cons.mp hp with h1 | h2
        · subst h1
          exact hs q (List.mem_cons_self _ _)
        · exact ih (fun r hr => hs r (List.mem_cons_of_mem _ hr)) p h2

theorem dictFind_scoreFold_ne {α : Type} (w : ℚ) (cond : α → Bool)
    (k j : String) (items : List α) (sc : List (String × ℚ)) (h : j ≠ k) :
    dictFind (scoreFold w cond k items sc) j = dictFind sc j := by
  induction items generalizing sc with
  | nil => rfl
  | cons a rest ih =>
      by_cases ha : cond a
      · have hstep : scoreFold w cond k (a :: rest) sc =
            scoreFold w cond k rest (addScore sc k w) := by
          simp [scoreFold, ha]
        rw [hstep, ih (addScore sc k w), dictFind_addScore, if_neg h]
      · have hstep : scoreFold w cond k (a :: rest) sc =
            scoreFold w cond k rest sc := by
          simp [scoreFold, ha]
        rw [hstep]
        exact ih sc

theorem dictFind_scoreFold_self {α : Type} (w : ℚ) (cond : α → Bool)
    (k : String) (items : List α) (sc : List (String × ℚ)) :
    dictFind (scoreFold w cond k items sc) k =
      if items.countP cond = 0 then dictFind sc k
      else some ((dictFind sc k).getD 0 + w * (items.countP cond : ℚ)) := by
  induction items generalizing sc with
  | nil => simp [scoreFold]
  | cons a rest ih =>
      by_cases ha : cond a
      · have hstep : scoreFold w cond k (a :: rest) sc =
            scoreFold w cond k rest (addScore sc k w) := by
          simp [scoreFold, ha]
        rw [hstep, ih (addScore sc k w), dictFind_addScore, if_pos rfl]
        have hcount : (a :: rest).countP cond = rest.countP cond + 1 := by
          simp [List.countP_cons, ha]
        rw [hcount]
        by_cases hc : rest.countP cond = 0
        · simp only [hc, if_pos rfl, Nat.zero_add]
          have : ¬ (0 + 1 = 0) := by omega
          rw [if_neg this]
          push_cast
          ring_nf
        · have h1 : ¬ (rest.countP cond + 1 = 0) := by omega
          rw [if_neg hc, if_neg h1]
          simp only [Option.getD_some]
          push_cast
          ring_nf
      · have hstep : scoreFold w cond k (a :: rest) sc =
            scoreFold w cond k rest sc := by
          simp [scoreFold, ha]
        have hcount : (a :: rest).countP cond = rest.countP cond := by
          simp [List.countP_cons, ha]
        rw [hstep, ih sc, hcount]

theorem dictFind_dictScoreFold_none {α : Type} (w : ℚ) (cond : α → Bool)
    (d : List (String × List α)) (sc : List (String × ℚ)) (j : String)
    (h : dictFind d j = none) :
    dictFind (dictScoreFold w cond d sc) j = dictFind sc j := by
  induction d generalizing sc with
  | nil => rfl
  | cons p rest ih =>
      obtain ⟨k, items⟩ := p
      by_cases hk : k = j
      · simp [dictFind, hk] at h
      · simp only [dictFind, hk, if_false] at h
        show dictFind (dictScoreFold w cond rest _) j = _
        rw [ih _ h, dictFind_scoreFold_ne]
        exact fun hh => hk hh.symm

theorem dictFind_dictScoreFold {α : Type} (w : ℚ) (cond : α → Bool)
    (d : List (String × List α)) (sc : List (String × ℚ)) (j : String)
    (hnd : (dictKeys d).Nodup) :
    dictFind (dictScoreFold w cond d sc) j =
      if (dictFindD d j).countP cond = 0 then dictFind sc j
      else some ((dictFind sc j).getD 0 +
        w * ((dictFindD d j).countP cond : ℚ)) := by
  induction d generalizing sc with
  | nil => simp [dictScoreFold, dictFindD, dictFind]
  | cons p rest ih =>
      obtain ⟨k, items⟩ := p
      have hnd2 : (dictKeys rest).Nodup := (List.nodup_cons.mp hnd).2
      have hknr : k ∉ dictKeys rest := (List.nodup_cons.mp hnd).1
      by_cases hk : k = j
      · subst hk
        have hrest : dictFind rest k = none := by
          rcases hf : dictFind rest k with _ | v
          · rfl
          · exact absurd (List.mem_map_of_mem Prod.fst (dictFind_mem _ _ _ hf))
              hknr
        have hD : dictFindD ((k, items) :: rest) k = items := by
          simp [dictFindD, dictFind]
        rw [hD]
        show dictFind (dictScoreFold w cond rest (scoreFold w cond k items sc)) k = _
        rw [dictFind_dictScoreFold_none w cond rest _ k hrest,
          dictFind_scoreFold_self]
      · have hD : dictFindD ((k, items) :: rest) j = dictFindD rest j := by
          simp [dictFindD, dictFind, hk]
        rw [hD]
        show dictFind (dictScoreFold w cond rest (scoreFold w cond k items sc)) j = _
        rw [ih _ hnd2, dictFind_scoreFold_ne w cond k j items sc
          (fun hh => hk hh.symm)]

/-- The total pattern-and-keyword evidence `classify` accumulates for one
intent: 2.0 per matching pattern plus 1.0 per matching keyword. -/
def intentEvidence (c : IntentClassifier) (text : String) (name : String) : ℚ :=
  2 * ((dictFindD c.patterns name).countP
        (fun r => regexSearch r text.data) : ℚ) +
  ((dictFindD c.keywords name).countP
        (fun kw => containsSub (lowerStr text).data (lowerStr kw).data) : ℚ)

theorem dictFind_preContextScores (c : IntentClassifier) (text : String)
    (name : String) (hp : (dictKeys c.patterns).Nodup)
    (hk : (dictKeys c.keywords).Nodup) :
    dictFind (preContextScores c text) name =
      if intentEvidence c text name = 0 then none
      else some (intentEvidence c text name) := by
  unfold preContextScores keywordScores patternScores intentEvidence
  set pc := (dictFindD c.patterns name).countP
    (fun r => regexSearch r text.data) with hpc
  set kc := (dictFindD c.keywords name).countP
    (fun kw => containsSub (lowerStr text).data (lowerStr kw).data) with hkc
  rw [dictFind_dictScoreFold _ _ _ _ _ hk, dictFind_dictScoreFold _ _ _ _ _ hp]
  rw [← hpc, ← hkc]
  have hfind0 : dictFind ([] : List (String × ℚ)) name = none := rfl
  rw [hfind0]
  by_cases hpc0 : pc = 0
  · by_cases hkc0 : kc = 0
    · simp [hpc0, hkc0]
    · have hne : ¬ (2 * (pc : ℚ) + (kc : ℚ) = 0) := by
        have : (0 : ℚ) < (kc : ℚ) := by
          exact_mod_cast Nat.pos_of_ne_zero hkc0
        simp [hpc0]
        omega
      simp only [hpc0, if_pos rfl, hkc0, if_neg hkc0, if_neg hne]
      simp [hpc0]
      exact hkc0
  · by_cases hkc0 : kc = 0
    · have hne : ¬ (2 * (pc : ℚ) + (kc : ℚ) = 0) := by
        have : (0 : ℚ) < (pc : ℚ) := by
          exact_mod_cast Nat.pos_of_ne_zero hpc0
        simp [hkc0]
        positivity
      simp only [if_neg hpc0, hkc0, if_pos rfl, if_neg hne]
      simp [hkc0]
      exact hpc0
    · have hne : ¬ (2 * (pc : ℚ) + (kc : ℚ) = 0) := by
        have h1 : (0 : ℚ) < (pc : ℚ) := by
          exact_mod_cast Nat.pos_of_ne_zero hpc0
        have h2 : (0 : ℚ) < (kc : ℚ) := by
          exact_mod_cast Nat.pos_of_ne_zero hkc0
        positivity
      simp only [if_neg hpc0, if_neg hkc0, if_neg hne]
      simp only [Option.getD_some, Option.getD_none, zero_add]
      congr 1
      ring

theorem scoreFold_pos {α : Type} (w : ℚ) (cond : α → Bool) (k : String)
    (items : List α) (sc : List (String × ℚ)) (hw : 0 < w)
    (hs : ∀ p ∈ sc, 0 < p.2) : ∀ p ∈ scoreFold w cond k items sc, 0 < p.2 := by
  refine foldl_preserve (fun l => ∀ p ∈ l, 0 < p.2) _ items sc hs ?_
  intro a b _ ha
  by_cases hb : cond b
  · simp only [hb, if_true]
    exact addScore_pos a k w ha hw
  · simpa [hb] using ha

theorem dictScoreFold_pos {α : Type} (w : ℚ) (cond : α → Bool)
    (d : List (String × List α)) (sc : List (String × ℚ)) (hw : 0 < w)
    (hs : ∀ p ∈ sc, 0 < p.2) :
    ∀ p ∈ dictScoreFold w cond d sc, 0 < p.2 := by
  refine foldl_preserve (fun l => ∀ p ∈ l, 0 < p.2) _ d sc hs ?_
  intro a b _ ha
  exact scoreFold_pos w cond b.1 b.2 a hw ha

theorem preContextScores_pos (c : IntentClassifier) (text : String) :
    ∀ p ∈ preContextScores c text, 0 < p.2 := by
  unfold preContextScores keywordScores patternScores
  refine dictScoreFold_pos _ _ _ _ (by norm_num) ?_
  refine dictScoreFold_pos _ _ _ _ (by norm_num) ?_
  intro p hp
  cases hp

theorem classifyScores_pos (c : IntentClassifier) (text : String)
    (ctx : Option Ctx) : ∀ p ∈ classifyScores c text ctx, 0 < p.2 := by
  unfold classifyScores contextBoost
  have hpre := preContextScores_pos c text
  cases ctx with
  | none => exact hpre
  | some cx =>
      by_cases hemp : cx.isEmpty
      · simpa [hemp] using hpre
      · simp only [hemp, if_false]
        rcases hfind : dictFind cx "last_intent" with _ | v
        · exact hpre
        · cases v with
          | str li =>
              by_cases hmem : dictMem (preContextScores c text) li
              · simp only [hmem, if_true]
                exact addScore_pos _ _ _ hpre (by norm_num)
              · simpa [hmem] using hpre
          | ents es => exact hpre

/-- Classifier used for claim C1: intent A is registered first with two
keywords, intent B second with one pattern; on the text below both reach
score 2.0. -/
def tieClassifier : IntentClassifier :=
  addIntent (addIntent mkIntentClassifier "A" ["foo", "bar"] [])
    "B" [] [rseq "baz".data]

/-- Claim C1 counterexample: A is registered before B, both are tied at
score 2.0 on the text (A via two keyword hits, B via one pattern hit),
yet classify returns B: pattern-scored intents enter the score dict
before keyword-scored ones, so the tie-break is score-insertion order,
not registration order. -/
theorem C1_counterexample :
    getIntents tieClassifier = ["A", "B"] ∧
    dictFind (classifyScores tieClassifier "foo bar baz" none) "A" = some 2 ∧
    dictFind (classifyScores tieClassifier "foo bar baz" none) "B" = some 2 ∧
    (classify tieClassifier "foo bar baz" none).1 = "B" := by
  with_unfolding_all decide

/-- Claim C1 amended: when the score map is non-empty, classify returns
the first entry of the score map attaining the maximal score -- the map
being ordered by score insertion (all pattern-scored intents in pattern
registration order, then keyword-only intents in keyword registration
order), not by intent registration order. -/
theorem C1_first_max_in_score_insertion_order (c : IntentClassifier)
    (text : String) (ctx : Option Ctx)
    (h : classifyScores c text ctx ≠ []) :
    ∃ best l1 l2,
      classifyScores c text ctx = l1 ++ best :: l2 ∧
      (∀ q ∈ l1, q.2 < best.2) ∧
      (∀ q ∈ classifyScores c text ctx, q.2 ≤ best.2) ∧
      classify c text ctx = (best.1, min (best.2 / 3) 1) := by
  rcases hm : pyMax (classifyScores c text ctx) with _ | p
  · exact absurd ((pyMax_none_iff _).mp hm) h
  · obtain ⟨l1, l2, heq, hlt, hle⟩ := pyMax_spec _ p hm
    exact ⟨p, l1, l2, heq, hlt, hle, by simp [classify, hm]⟩

/-- Witness for the amended C1 theorem at the tie-break classifier. -/
theorem C1_first_max_witness :
    classifyScores tieClassifier "foo bar baz" none ≠ [] ∧
    ∃ best l1 l2,
      classifyScores tieClassifier "foo bar baz" none = l1 ++ best :: l2 ∧
      (∀ q ∈ l1, q.2 < best.2) ∧
      (∀ q ∈ classifyScores tieClassifier "foo bar baz" none, q.2 ≤ best.2) ∧
      classify tieClassifier "foo bar baz" none = (best.1, min (best.2 / 3) 1) :=
  ⟨by with_unfolding_all decide,
   C1_first_max_in_score_insertion_order tieClassifier "foo bar baz" none
     (by with_unfolding_all decide)⟩

/-- Classifier used for claim C3: two intents tied at keyword score 1.0
on the text "yes". -/
def contTieClassifier : IntentClassifier :=
  addIntent (addIntent mkIntentClassifier "A" ["yes"] []) "B" ["yes"] []

/-- Claim C3: with `last_intent` in the context, the 0.3 continuity bonus
is added to that intent exactly when it already has a (necessarily
positive) score from the pattern and keyword passes; an absent intent
stays absent and other intents are untouched.  On two intents tied at
keyword score 1.0 with context pointing at A, A wins at 1.3 (confidence
13/30) over the competitor's 1.0. -/
theorem C3_continuity_bonus :
    (∀ (c : IntentClassifier) (text : String) (cx : Ctx) (li : String),
      dictFind cx "last_intent" = some (Value.str li) →
      (∀ w, dictFind (preContextScores c text) li = some w →
          0 < w ∧
          dictFind (classifyScores c text (some cx)) li = some (w + 3 / 10)) ∧
      (dictFind (preContextScores c text) li = none →
          dictFind (classifyScores c text (some cx)) li = none) ∧
      (∀ j, j ≠ li →
          dictFind (classifyScores c text (some cx)) j =
            dictFind (preContextScores c text) j)) ∧
    classifyScores contTieClassifier "yes"
        (some [("last_intent", Value.str "A")]) =
      [("A", 13 / 10), ("B", 1)] ∧
    classify contTieClassifier "yes" (some [("last_intent", Value.str "A")]) =
      ("A", 13 / 30) := by
  refine ⟨?_, by with_unfolding_all decide, by with_unfolding_all decide⟩
  intro c text cx li hfind
  have hemp : cx.isEmpty = false := by
    cases cx with
    | nil => simp [dictFind] at hfind
    | cons p rest => rfl
  have hscores : classifyScores c text (some cx) =
      (if dictMem (preContextScores c text) li then
        addScore (preContextScores c text) li (3 / 10)
      else preContextScores c text) := by
    simp [classifyScores, contextBoost, hemp, hfind]
  refine ⟨?_, ?_, ?_⟩
  · intro w hw
    constructor
    · have := dictFind_mem _ _ _ hw
      exact preContextScores_pos c text _ this
    · have hmem : dictMem (preContextScores c text) li = true := by
        unfold dictMem
        rw [hw]
        rfl
      rw [hscores, if_pos hmem, dictFind_addScore, if_pos rfl, hw]
      rfl
  · intro hnone
    have hmem : dictMem (preContextScores c text) li = false := by
      unfold dictMem
      rw [hnone]
      rfl
    rw [hscores, if_neg (by simp [hmem]), hnone]
  · intro j hj
    rw [hscores]
    by_cases hmem : dictMem (preContextScores c text) li
    · rw [if_pos hmem, dictFind_addScore, if_neg hj]
    · rw [if_neg hmem]

/-- Witness for the universally quantified part of C3 at the concrete
tied classifier: A has pre-context score 1, which is positive, and the
boosted map holds 1 + 3/10 for it. -/
theorem C3_continuity_bonus_witness :
    0 < (1 : ℚ) ∧
    dictFind (classifyScores contTieClassifier "yes"
        (some [("last_intent", Value.str "A")])) "A" = some (1 + 3 / 10) :=
  ((C3_continuity_bonus.1 contTieClassifier "yes"
      [("last_intent", Value.str "A")] "A"
      (by with_unfolding_all decide)).1 1 (by with_unfolding_all decide))

/-- Classifier of the C4 scoring example. -/
def greetClassifier : IntentClassifier :=
  addIntent mkIntentClassifier "greeting" ["hello", "hi"] []

/-- Claim C4: the confidence returned by classify always lies in [0, 1];
when the score map is non-empty it equals min(best score / 3, 1); and on
the example classifier, "hello there" classifies as greeting with
confidence 1/3. -/
theorem C4_confidence_bounds :
    (∀ (c : IntentClassifier) (text : String) (ctx : Option Ctx),
      0 ≤ (classify c text ctx).2 ∧ (classify c text ctx).2 ≤ 1) ∧
    (∀ (c : IntentClassifier) (text : String) (ctx : Option Ctx)
        (best : String × ℚ),
      pyMax (classifyScores c text ctx) = some best →
      classify c text ctx = (best.1, min (best.2 / 3) 1)) ∧
    classify greetClassifier "hello there" none = ("greeting", 1 / 3) := by
  refine ⟨?_, ?_, by with_unfolding_all decide⟩
  · intro c text ctx
    rcases hm : pyMax (classifyScores c text ctx) with _ | p
    · simp [classify, hm]
    · obtain ⟨l1, l2, heq, _, _⟩ := pyMax_spec _ p hm
      have hmem : p ∈ classifyScores c text ctx := by
        rw [heq]
        exact List.mem_append_right _ (List.mem_cons_self _ _)
      have hpos : 0 < p.2 := classifyScores_pos c text ctx p hmem
      have h1 : (classify c text ctx).2 = min (p.2 / 3) 1 := by
        simp [classify, hm]
      rw [h1]
      constructor
      · exact le_min (by positivity) (by norm_num)
      · exact min_le_right _ _
  · intro c text ctx best hm
    simp [classify, hm]

/-- Witness for the conditional part of C4 at the example classifier. -/
theorem C4_confidence_witness :
    pyMax (classifyScores greetClassifier "hello there" none) =
      some ("greeting", 1) ∧
    classify greetClassifier "hello there" none =
      ("greeting", min ((1 : ℚ) / 3) 1) :=
  ⟨by with_unfolding_all decide,
   C4_confidence_bounds.2.1 greetClassifier "hello there" none ("greeting", 1)
     (by with_unfolding_all decide)⟩

/-- Context manager used for claim C2: timeout 5 seconds, one user whose
context was written at time 0. -/
def staleManager : ContextManager :=
  updateContext (mkContextManager (some 5)) "u" [("k", Value.str "v")] true 0

/-- Claim C2 counterexample: with timeout 5 and last touch at time 0,
get at time 10 (more than 5 seconds later) does return the empty
mapping, but has_context -- which reads no clock and performs no expiry
-- returns true as the first operation after the timeout elapses. -/
theorem C2_counterexample :
    staleManager.contextTimeout = some 5 ∧
    dictFind staleManager.timestamps "u" = some 0 ∧
    expiryDue staleManager "u" 10 = true ∧
    (getContext staleManager "u" 10).2 = [] ∧
    hasContext staleManager "u" = true := by
  with_unfolding_all decide

/-- The user's mapping after `clear_context`: empty when the key was
present (it survives, cleared in place), otherwise still absent. -/
theorem clearContext_find (m : ContextManager) (u : String) :
    dictFind (clearContext m u).contexts u =
      if dictMem m.contexts u = true then some [] else none := by
  show dictFind
      (if dictMem m.contexts u then dictInsert m.contexts u [] else m.contexts)
      u = _
  by_cases hmem : dictMem m.contexts u = true
  · rw [if_pos hmem, if_pos hmem]
    exact dictFind_dictInsert_self _ _ _
  · rw [if_neg hmem, if_neg hmem]
    exact dictMem_false_find_none _ _ (by simpa using hmem)

theorem getContext_expired (m : ContextManager) (u : String) (now : ℚ)
    (hdue : expiryDue m u now = true) :
    (getContext m u now).2 = [] ∧
    dictFind (getContext m u now).1.contexts u = some [] := by
  have hgc : getContext m u now =
      ({ clearContext m u with
          timestamps := dictInsert (clearContext m u).timestamps u now,
          contexts := (ddGet (clearContext m u).contexts u).1 },
        (ddGet (clearContext m u).contexts u).2) := by
    unfold getContext
    rw [hdue]
    rfl
  rw [hgc]
  by_cases hmem : dictMem m.contexts u = true
  · have hfind : dictFind (clearContext m u).contexts u = some [] := by
      rw [clearContext_find, if_pos hmem]
    constructor
    · simp [ddGet, hfind]
    · simp only [ddGet, hfind]
  · have hfind : dictFind (clearContext m u).contexts u = none := by
      rw [clearContext_find, if_neg hmem]
    constructor
    · simp [ddGet, hfind]
    · simp only [ddGet, hfind]
      rw [dictFind_append_of_none _ _ _ hfind]
      simp [dictFind]

/-- Claim C2 amended: after more than the configured timeout has elapsed
since the last touch, get(user) returns the empty mapping, and has(user)
is false once that get has run; has_context itself performs no expiry
check, so before an expiry-aware access it still reports a stale
non-empty context. -/
theorem C2_lazy_expiry (m : ContextManager) (u : String) (now ts : ℚ)
    (T : Nat) (hT : m.contextTimeout = some T) (hT0 : T ≠ 0)
    (hts : dictFind m.timestamps u = some ts)
    (helapsed : now - ts > (T : ℚ)) :
    (getContext m u now).2 = [] ∧
    hasContext (getContext m u now).1 u = false := by
  have hdue : expiryDue m u now = true := by
    unfold expiryDue
    rw [hT]
    simp [hT0, hts, helapsed]
  obtain ⟨h1, h2⟩ := getContext_expired m u now hdue
  refine ⟨h1, ?_⟩
  unfold hasContext
  rw [h2]
  rfl

/-- Witness for the amended C2 theorem at the stale manager. -/
theorem C2_lazy_expiry_witness :
    (getContext staleManager "u" 10).2 = [] ∧
    hasContext (getContext staleManager "u" 10).1 "u" = false :=
  C2_lazy_expiry staleManager "u" 10 0 5 (by with_unfolding_all decide)
    (by decide) (by with_unfolding_all decide) (by with_unfolding_all decide)

theorem scoreFold_id {α : Type} (w : ℚ) (cond : α → Bool) (k : String)
    (items : List α) (sc : List (String × ℚ))
    (h : ∀ it ∈ items, cond it = false) : scoreFold w cond k items sc = sc := by
  refine foldl_fix _ items sc ?_
  intro a it hit
  simp [h it hit]

theorem dictScoreFold_id {α : Type} (w : ℚ) (cond : α → Bool)
    (d : List (String × List α)) (sc : List (String × ℚ))
    (h : ∀ p ∈ d, ∀ it ∈ p.2, cond it = false) :
    dictScoreFold w cond d sc = sc := by
  refine foldl_fix _ d sc ?_
  intro a p hp
  exact scoreFold_id _ _ _ _ _ (h p hp)

theorem contextBoost_nil (ctx : Option Ctx) : contextBoost [] ctx = [] := by
  cases ctx with
  | none => rfl
  | some cx =>
      unfold contextBoost
      by_cases hcx : cx.isEmpty
      · simp [hcx]
      · simp only [hcx, if_false, Bool.false_eq_true]
        rcases hfind : dictFind cx "last_intent" with _ | v
        · rfl
        · cases v with
          | str li => simp [dictMem, dictFind]
          | ents es => rfl

theorem findIter_nil_of_no_match (r : Regex) (h : matchAt r [] 0 = none) :
    findIter r [] = [] := by
  simp [findIter, findIterFrom, h]

/-- Classifier used to refute claim C5: the empty string is registered
as a keyword (a state reachable through `add_intent`), and the empty
string is a substring of every text, including the empty text. -/
def emptyKeywordClassifier : IntentClassifier :=
  addIntent mkIntentClassifier "greeting" [""] []

/-- Claim C5 counterexample: a classifier state exists (empty string
registered as a keyword) on which classify("") does not return
"unknown"/0.0 but scores the intent. -/
theorem C5_counterexample :
    classify emptyKeywordClassifier "" none = ("greeting", 1 / 3) ∧
    (classify emptyKeywordClassifier "" none).1 ≠ "unknown" := by
  with_unfolding_all decide

/-- Claim C5 amended: classify and extract are total functions (no
exception model is needed); classify("") returns the default intent with
confidence 0.0 for every classifier whose registered keywords are all
non-empty and whose patterns do not match the empty string; extract("")
is empty for every extractor whose patterns do not match the empty
string and whose custom extractors return nothing on "".  Both guards
hold for freshly constructed components. -/
theorem C5_empty_input :
    (∀ (c : IntentClassifier) (ctx : Option Ctx),
      (∀ p ∈ c.patterns, ∀ r ∈ p.2, regexSearch r ("" : String).data = false) →
      (∀ p ∈ c.keywords, ∀ kw ∈ p.2, kw ≠ "") →
      classify c "" ctx = (c.defaultIntent, 0)) ∧
    (∀ (ex : EntityExtractor) (hint : Option String),
      (∀ p ∈ ex.patterns, ∀ r ∈ p.2, matchAt r ("" : String).data 0 = none) →
      (∀ p ∈ ex.extractors, p.2 "" = []) →
      extract ex "" hint = []) ∧
    classify mkIntentClassifier "" none = ("unknown", 0) ∧
    extract mkEntityExtractor "" none = [] := by
  refine ⟨?_, ?_, by with_unfolding_all decide, by with_unfolding_all decide⟩
  · intro c ctx hpat hkw
    have hps : patternScores c "" = [] := by
      unfold patternScores
      refine dictScoreFold_id _ _ _ _ ?_
      intro p hp r hr
      exact hpat p hp r hr
    have hks : keywordScores c (lowerStr "") [] = [] := by
      unfold keywordScores
      refine dictScoreFold_id _ _ _ _ ?_
      intro p hp kw hkw2
      have hne : kw.data ≠ [] := by
        intro hd
        apply hkw p hp kw hkw2
        cases kw
        cases hd
        rfl
      have hld : (lowerStr kw).data = kw.data.map Char.toLower := rfl
      have hne2 : (lowerStr kw).data ≠ [] := by
        rw [hld]
        simp [hne]
      show containsSub (lowerStr ("" : String)).data (lowerStr kw).data = false
      cases hlk : (lowerStr kw).data with
      | nil => exact absurd hlk hne2
      | cons a rest => simp [containsSub, lowerStr]
    have hsc : classifyScores c "" ctx = [] := by
      unfold classifyScores preContextScores
      rw [hps, hks]
      exact contextBoost_nil ctx
    simp [classify, hsc, pyMax]
  · intro ex hint hpat hext
    have hpe : patternEntities ex "" = [] := by
      unfold patternEntities
      refine foldl_fix _ _ _ ?_
      intro a p hp
      refine foldl_fix _ _ _ ?_
      intro a2 r hr
      rw [findIter_nil_of_no_match r (hpat p hp r hr)]
      simp
    have hce : customEntities ex "" [] = [] := by
      unfold customEntities
      refine foldl_fix _ _ _ ?_
      intro a p hp
      rw [hext p hp]
      simp
    unfold extract
    rw [hpe, hce]
    rfl

/-- Witness for the guarded parts of C5 at the freshly constructed
classifier and extractor. -/
theorem C5_empty_input_witness :
    classify mkIntentClassifier "" none = (mkIntentClassifier.defaultIntent, 0) ∧
    extract mkEntityExtractor "" none = [] :=
  ⟨C5_empty_input.1 mkIntentClassifier none
      (by intro p hp; exact absurd hp (List.not_mem_nil p))
      (by intro p hp; exact absurd hp (List.not_mem_nil p)),
   C5_empty_input.2.1 mkEntityExtractor none
      (by with_unfolding_all decide)
      (by intro p hp; exact absurd hp (List.not_mem_nil p))⟩

theorem dictFindD_dictExtend_self {α : Type} (d : List (String × List α))
    (k : String) (vs : List α) :
    dictFindD (dictExtend d k vs) k = dictFindD d k ++ vs := by
  induction d with
  | nil => simp [dictExtend, dictFindD, dictFind]
  | cons p rest ih =>
      obtain ⟨k2, v2⟩ := p
      by_cases hk : k2 = k
      · simp [dictExtend, dictFindD, dictFind, hk]
      · simp only [dictExtend, hk, if_false]
        simp only [dictFindD, dictFind, hk, if_false] at ih ⊢
        exact ih

theorem dictFind_isSome_of_mem_keys {α : Type} (d : List (String × α))
    (k : String) (h : k ∈ dictKeys d) : (dictFind d k).isSome = true := by
  induction d with
  | nil => cases h
  | cons p rest ih =>
      obtain ⟨k2, v2⟩ := p
      by_cases hk : k2 = k
      · simp [dictFind, hk]
      · have : k ∈ dictKeys rest := by
          rcases List.mem_cons.mp h with h1 | h2
          · exact absurd h1.symm hk
          · exact h2
        simp [dictFind, hk, ih this]

theorem dictKeys_dictExtend {α : Type} (d : List (String × List α))
    (k : String) (vs : List α) :
    dictKeys (dictExtend d k vs) =
      if dictMem d k = true then dictKeys d else dictKeys d ++ [k] := by
  induction d with
  | nil => simp [dictExtend, dictKeys, dictMem, dictFind]
  | cons p rest ih =>
      obtain ⟨k2, v2⟩ := p
      by_cases hk : k2 = k
      · simp [dictExtend, dictKeys, dictMem, dictFind, hk]
      · have hmm : dictMem ((k2, v2) :: rest) k = dictMem rest k := by
          simp [dictMem, dictFind, hk]
        rw [hmm]
        simp only [dictExtend, hk, if_false]
        by_cases hmem : dictMem rest k = true
        · rw [if_pos hmem]
          rw [if_pos hmem] at ih
          simp only [dictKeys, List.map_cons] at ih ⊢
          rw [ih]
        · rw [if_neg hmem]
          rw [if_neg hmem] at ih
          simp only [dictKeys, List.map_cons] at ih ⊢
          rw [ih]
          simp

theorem nodup_dictExtend {α : Type} (d : List (String × List α))
    (k : String) (vs : List α) (h : (dictKeys d).Nodup) :
    (dictKeys (dictExtend d k vs)).Nodup := by
  rw [dictKeys_dictExtend]
  by_cases hmem : dictMem d k = true
  · simp [hmem, h]
  · simp only [hmem, if_false]
    have hnotin : k ∉ dictKeys d := by
      intro hin
      have := dictFind_isSome_of_mem_keys d k hin
      unfold dictMem at hmem
      exact hmem this
    simp [List.nodup_append, h, hnotin]

theorem addIntent_keywords_eq (c : IntentClassifier) (n : String)
    (ks : List String) (ps : List Regex) :
    (addIntent c n ks ps).keywords =
      if ks.isEmpty then c.keywords else dictExtend c.keywords n ks := rfl

theorem addIntent_patterns_eq (c : IntentClassifier) (n : String)
    (ks : List String) (ps : List Regex) :
    (addIntent c n ks ps).patterns =
      if ps.isEmpty then c.patterns else dictExtend c.patterns n ps := rfl

theorem dictFindD_addIntent_keywords (c : IntentClassifier) (n : String)
    (ks : List String) (ps : List Regex) :
    dictFindD (addIntent c n ks ps).keywords n = dictFindD c.keywords n ++ ks := by
  rw [addIntent_keywords_eq]
  cases hks : ks.isEmpty
  · rw [if_neg Bool.false_ne_true]
    exact dictFindD_dictExtend_self _ _ _
  · have : ks = [] := List.isEmpty_iff.mp hks
    subst this
    simp

theorem dictFindD_addIntent_patterns (c : IntentClassifier) (n : String)
    (ks : List String) (ps : List Regex) :
    dictFindD (addIntent c n ks ps).patterns n = dictFindD c.patterns n ++ ps := by
  rw [addIntent_patterns_eq]
  cases hps : ps.isEmpty
  · rw [if_neg Bool.false_ne_true]
    exact dictFindD_dictExtend_self _ _ _
  · have : ps = [] := List.isEmpty_iff.mp hps
    subst this
    simp

theorem nodup_addIntent_keywords (c : IntentClassifier) (n : String)
    (ks : List String) (ps : List Regex)
    (h : (dictKeys c.keywords).Nodup) :
    (dictKeys (addIntent c n ks ps).keywords).Nodup := by
  rw [addIntent_keywords_eq]
  cases hks : ks.isEmpty
  · rw [if_neg Bool.false_ne_true]
    exact nodup_dictExtend _ _ _ h
  · simpa using h

theorem nodup_addIntent_patterns (c : IntentClassifier) (n : String)
    (ks : List String) (ps : List Regex)
    (h : (dictKeys c.patterns).Nodup) :
    (dictKeys (addIntent c n ks ps).patterns).Nodup := by
  rw [addIntent_patterns_eq]
  cases hps : ps.isEmpty
  · rw [if_neg Bool.false_ne_true]
    exact nodup_dictExtend _ _ _ h
  · simpa using h

/-- Claim C6: registration is additive.  Registering `name` twice leaves
the stored keyword list as the concatenation of the previous list with
both new lists (and likewise for patterns), and classify's scoring of
`name` reads exactly these concatenated lists: its score evidence is
2.0 per matching pattern plus 1.0 per matching keyword over the
concatenations, present in the score map exactly when nonzero. -/
theorem C6_additive_registration (c : IntentClassifier) (name : String)
    (k1 k2 : List String) (p1 p2 : List Regex) (text : String)
    (hp : (dictKeys c.patterns).Nodup) (hk : (dictKeys c.keywords).Nodup) :
    dictFindD (addIntent (addIntent c name k1 p1) name k2 p2).keywords name =
      dictFindD c.keywords name ++ k1 ++ k2 ∧
    dictFindD (addIntent (addIntent c name k1 p1) name k2 p2).patterns name =
      dictFindD c.patterns name ++ p1 ++ p2 ∧
    intentEvidence (addIntent (addIntent c name k1 p1) name k2 p2) text name =
      2 * ((dictFindD c.patterns name ++ p1 ++ p2).countP
            (fun r => regexSearch r text.data) : ℚ) +
      ((dictFindD c.keywords name ++ k1 ++ k2).countP
            (fun kw => containsSub (lowerStr text).data (lowerStr kw).data) : ℚ) ∧
    dictFind
        (preContextScores (addIntent (addIntent c name k1 p1) name k2 p2) text)
        name =
      (if intentEvidence (addIntent (addIntent c name k1 p1) name k2 p2)
            text name = 0 then none
       else some (intentEvidence (addIntent (addIntent c name k1 p1) name k2 p2)
            text name)) := by
  have hkw : dictFindD (addIntent (addIntent c name k1 p1) name k2 p2).keywords
      name = dictFindD c.keywords name ++ k1 ++ k2 := by
    rw [dictFindD_addIntent_keywords, dictFindD_addIntent_keywords]
  have hpt : dictFindD (addIntent (addIntent c name k1 p1) name k2 p2).patterns
      name = dictFindD c.patterns name ++ p1 ++ p2 := by
    rw [dictFindD_addIntent_patterns, dictFindD_addIntent_patterns]
  refine ⟨hkw, hpt, ?_, ?_⟩
  · unfold intentEvidence
    rw [hkw, hpt]
  · exact dictFind_preContextScores _ text name
      (nodup_addIntent_patterns _ _ _ _ (nodup_addIntent_patterns _ _ _ _ hp))
      (nodup_addIntent_keywords _ _ _ _ (nodup_addIntent_keywords _ _ _ _ hk))

/-- Classifier registered twice under the same name, for the C6
witness. -/
def addTwiceClassifier : IntentClassifier :=
  addIntent (addIntent mkIntentClassifier "order" ["pizza"] [rseq "order".data])
    "order" ["pie"] []

/-- Witness for C6 at a concrete double registration. -/
theorem C6_additive_registration_witness :
    dictFindD addTwiceClassifier.keywords "order" =
      dictFindD mkIntentClassifier.keywords "order" ++ ["pizza"] ++ ["pie"] ∧
    dictFindD addTwiceClassifier.patterns "order" =
      dictFindD mkIntentClassifier.patterns "order" ++ [rseq "order".data] ++ [] ∧
    intentEvidence addTwiceClassifier "I want to order a pizza" "order" =
      2 * ((dictFindD mkIntentClassifier.patterns "order" ++ [rseq "order".data]
            ++ []).countP
            (fun r => regexSearch r ("I want to order a pizza" : String).data) : ℚ) +
      ((dictFindD mkIntentClassifier.keywords "order" ++ ["pizza"] ++
            ["pie"]).countP
            (fun kw => containsSub (lowerStr "I want to order a pizza").data
              (lowerStr kw).data) : ℚ) ∧
    dictFind (preContextScores addTwiceClassifier "I want to order a pizza")
        "order" =
      (if intentEvidence addTwiceClassifier "I want to order a pizza" "order" = 0
        then none
       else some (intentEvidence addTwiceClassifier "I want to order a pizza"
        "order")) :=
  C6_additive_registration mkIntentClassifier "order" ["pizza"] ["pie"]
    [rseq "order".data] [] "I want to order a pizza"
    (by decide) (by decide)

theorem mem_insertSorted (e a : Entity) (l : List Entity) :
    a ∈ insertSorted e l ↔ a = e ∨ a ∈ l := by
  induction l with
  | nil => simp [insertSorted]
  | cons x xs ih =>
      by_cases h : startKey e ≤ startKey x
      · simp [insertSorted, h]
      · simp only [insertSorted, h, if_false]
        rw [List.mem_cons, ih, List.mem_cons]
        tauto

theorem pairwise_insertSorted (e : Entity) (l : List Entity)
    (h : l.Pairwise (fun a b => startKey a ≤ startKey b)) :
    (insertSorted e l).Pairwise (fun a b => startKey a ≤ startKey b) := by
  induction l with
  | nil => simp [insertSorted]
  | cons x xs ih =>
      rcases List.pairwise_cons.mp h with ⟨hx, hxs⟩
      by_cases hle : startKey e ≤ startKey x
      · simp only [insertSorted, hle, if_true]
        refine List.pairwise_cons.mpr ⟨?_, h⟩
        intro b hb
        rcases List.mem_cons.mp hb with h1 | h2
        · subst h1
          exact hle
        · exact le_trans hle (hx b h2)
      · simp only [insertSorted, hle, if_false]
        refine List.pairwise_cons.mpr ⟨?_, ih hxs⟩
        intro b hb
        rcases (mem_insertSorted e b xs).mp hb with h1 | h2
        · subst h1
          exact le_of_lt (lt_of_not_le hle)
        · exact hx b h2

theorem sortByStart_pairwise (l : List Entity) :
    (sortByStart l).Pairwise (fun a b => startKey a ≤ startKey b) := by
  induction l with
  | nil => simp [sortByStart]
  | cons x xs ih => exact pairwise_insertSorted x (sortByStart xs) ih

theorem filter_insertSorted (e : Entity) (l : List Entity) (k : Nat) :
    (insertSorted e l).filter (fun x => startKey x = k) =
      (e :: l).filter (fun x => startKey x = k) := by
  induction l with
  | nil => rfl
  | cons x xs ih =>
      by_cases hle : startKey e ≤ startKey x
      · simp only [insertSorted, hle, if_true]
      · simp only [insertSorted, hle, if_false]
        by_cases hx : startKey x = k
        · have he : startKey e ≠ k := fun he =>
            hle (le_of_eq (he.trans hx.symm))
          simp [List.filter_cons, hx, he, ih]
        · simp [List.filter_cons, hx, ih]

theorem filter_sortByStart (l : List Entity) (k : Nat) :
    (sortByStart l).filter (fun x => startKey x = k) =
      l.filter (fun x => startKey x = k) := by
  induction l with
  | nil => rfl
  | cons x xs ih =>
      have h1 : sortByStart (x :: xs) = insertSorted x (sortByStart xs) := rfl
      rw [h1, filter_insertSorted]
      simp only [List.filter_cons]
      by_cases hx : startKey x = k
      · simp [hx, ih]
      · simp [hx, ih]

/-- Claim C7: extract returns its entities sorted ascending by the
`start` key (a missing `start` counting as 0); among entities with equal
keys the pre-sort accumulation order (pattern entities in pattern
registration order, then custom-extractor entities) is preserved, Python
sort being stable; and on a fresh extractor the example text yields the
email entity first and the phone entity second, every returned entity
having start < end. -/
theorem C7_extract_ordering :
    (∀ (ex : EntityExtractor) (text : String) (hint : Option String),
      (extract ex text hint).Pairwise (fun a b => startKey a ≤ startKey b)) ∧
    (∀ (ex : EntityExtractor) (text : String) (hint : Option String) (k : Nat),
      (extract ex text hint).filter (fun e => startKey e = k) =
        (customEntities ex text (patternEntities ex text)).filter
          (fun e => startKey e = k)) ∧
    extract mkEntityExtractor "Contact test@example.com or call 555-123-4567"
        none =
      [⟨"email", "test@example.com", some 8, some 24⟩,
       ⟨"phone", "555-123-4567", some 33, some 45⟩,
       ⟨"number", "555", some 33, some 36⟩,
       ⟨"number", "123", some 37, some 40⟩,
       ⟨"number", "4567", some 41, some 45⟩] ∧
    (extract mkEntityExtractor "Contact test@example.com or call 555-123-4567"
        none).all
      (fun e => e.startPos.getD 0 < e.endPos.getD 0) = true := by
  refine ⟨?_, ?_, by with_unfolding_all decide, by with_unfolding_all decide⟩
  · intro ex text hint
    exact sortByStart_pairwise _
  · intro ex text hint k
    exact filter_sortByStart _ k

/-- Claim C8: the pipeline result carries a response exactly when a
handler is registered under the detected intent; the registered handler
is invoked on the message, the extracted entities and the fetched
context, and its return value is the response; re-registration under the
same intent name replaces the handler, so the most recent registration
wins.  A missing handler is not an error: the result simply has no
response. -/
theorem C8_handler_dispatch :
    (∀ (e : ChatbotEngine) (msg userId : String) (now : ℚ),
      ((processMessage e msg userId now).2.response.isSome = true ↔
        dictMem e.handlers (processMessage e msg userId now).2.intent = true) ∧
      (∀ h, dictFind e.handlers (processMessage e msg userId now).2.intent =
          some h →
        (processMessage e msg userId now).2.response =
          some (h msg (processMessage e msg userId now).2.entities
            (processMessage e msg userId now).2.context))) ∧
    (∀ (e : ChatbotEngine) (intent : String) (h1 h2 : Handler),
      dictFind (registerIntentHandler (registerIntentHandler e intent h1)
        intent h2).handlers intent = some h2) := by
  constructor
  · intro e msg userId now
    have hint : (processMessage e msg userId now).2.intent =
        (classify e.intentClassifier msg
          (some (getContext e.contextManager userId now).2)).1 := rfl
    have hresp : (processMessage e msg userId now).2.response =
        (match dictFind e.handlers (processMessage e msg userId now).2.intent
          with
        | some h => some (h msg (processMessage e msg userId now).2.entities
            (getContext e.contextManager userId now).2)
        | none => none) := rfl
    constructor
    · rw [hresp]
      unfold dictMem
      rcases hf : dictFind e.handlers (processMessage e msg userId now).2.intent
        with _ | h
      · simp
      · simp
    · intro h hf
      rw [hresp, hf]
      rfl
  · intro e intent h1 h2
    exact dictFind_dictInsert_self _ _ _

/-- A concrete handler for the C8 witness. -/
def respondOk : Handler :=
  fun _ _ _ => Value.str "ok"

/-- Engine with an empty classifier (every text classifies as "unknown")
and a handler registered under "unknown", for the C8 witness. -/
def handlerEngine : ChatbotEngine :=
  registerIntentHandler
    ⟨mkIntentClassifier, ⟨[], []⟩, mkContextManager none, []⟩ "unknown"
    respondOk

/-- Witness for C8: on the concrete engine the registered handler is
found for the detected intent and its value is attached as the
response. -/
theorem C8_handler_dispatch_witness :
    dictFind handlerEngine.handlers
        (processMessage handlerEngine "zzz" "u" 0).2.intent = some respondOk ∧
    (processMessage handlerEngine "zzz" "u" 0).2.response =
      some (respondOk "zzz" (processMessage handlerEngine "zzz" "u" 0).2.entities
        (processMessage handlerEngine "zzz" "u" 0).2.context) :=
  ⟨rfl, (C8_handler_dispatch.1 handlerEngine "zzz" "u" 0).2 respondOk rfl⟩

/-- Claim C9: reads create store entries.  For a user unknown to the
store, get_context and get_context_value both insert an empty mapping
(the defaultdict effect), so the user appears in get_all_users while
has_context stays false; get_context additionally records the last-touch
timestamp, while get_context_value leaves timestamps untouched. -/
theorem C9_reads_create_entries (m : ContextManager) (u : String) (now : ℚ)
    (key : String) (dflt : Value) (h : dictMem m.contexts u = false) :
    u ∈ getAllUsers (getContext m u now).1 ∧
    hasContext (getContext m u now).1 u = false ∧
    dictFind (getContext m u now).1.timestamps u = some now ∧
    u ∈ getAllUsers (getContextValue m u key dflt).1 ∧
    hasContext (getContextValue m u key dflt).1 u = false ∧
    (getContextValue m u key dflt).1.timestamps = m.timestamps := by
  have hfind : dictFind m.contexts u = none := dictMem_false_find_none _ _ h
  have hclear : (clearContext m u).contexts = m.contexts := by
    unfold clearContext
    simp [h]
  have hgc1 : (getContext m u now).1.contexts = m.contexts ++ [(u, [])] ∧
      (getContext m u now).1.timestamps =
        dictInsert (if expiryDue m u now then clearContext m u
          else m).timestamps u now := by
    unfold getContext
    by_cases hdue : expiryDue m u now = true
    · simp only [hdue, if_true]
      constructor
      · simp [ddGet, hclear, hfind]
      · trivial
    · simp only [hdue]
      have : expiryDue m u now = false := by
        simpa using hdue
      simp only [this, Bool.false_eq_true, if_false]
      constructor
      · simp [ddGet, hfind]
      · trivial
  have happ : dictFind (m.contexts ++ [(u, [])]) u = some [] := by
    rw [dictFind_append_of_none _ _ _ hfind]
    simp [dictFind]
  refine ⟨?_, ?_, ?_, ?_, ?_, ?_⟩
  · unfold getAllUsers
    rw [hgc1.1]
    unfold dictKeys
    simp
  · unfold hasContext
    rw [hgc1.1, happ]
    rfl
  · rw [hgc1.2]
    exact dictFind_dictInsert_self _ _ _
  · unfold getContextValue getAllUsers
    simp only [ddGet, hfind]
    unfold dictKeys
    simp
  · unfold getContextValue hasContext
    simp only [ddGet, hfind]
    rw [happ]
    rfl
  · rfl

/-- Witness for C9 on a fresh store. -/
theorem C9_reads_create_entries_witness :
    "u" ∈ getAllUsers (getContext (mkContextManager none) "u" 7).1 ∧
    hasContext (getContext (mkContextManager none) "u" 7).1 "u" = false ∧
    dictFind (getContext (mkContextManager none) "u" 7).1.timestamps "u" =
      some 7 ∧
    "u" ∈ getAllUsers
        (getContextValue (mkContextManager none) "u" "k" (Value.str "d")).1 ∧
    hasContext
        (getContextValue (mkContextManager none) "u" "k" (Value.str "d")).1
        "u" = false ∧
    (getContextValue (mkContextManager none) "u" "k"
        (Value.str "d")).1.timestamps = (mkContextManager none).timestamps :=
  C9_reads_create_entries (mkContextManager none) "u" 7 "k" (Value.str "d") rfl

theorem updateContext_find_self (m : ContextManager) (u : String) (upd : Ctx)
    (now : ℚ) :
    dictFind (updateContext m u upd true now).contexts u =
      some (dictUpdateMany (ddGet m.contexts u).2 upd) := by
  show dictFind (dictInsert (ddGet m.contexts u).1 u
      (dictUpdateMany (ddGet m.contexts u).2 upd)) u = _
  exact dictFind_dictInsert_self _ _ _

/-- Claim C10: the context a pipeline turn exposes is the pre-update
snapshot.  The mapping returned under context, and the context the
handler is invoked on, are the user's context as fetched at the start of
the turn; the last_message / last_intent / entities values of the turn
are merged into the stored context afterwards. -/
theorem C10_context_snapshot (e : ChatbotEngine) (msg userId : String)
    (now : ℚ) :
    (processMessage e msg userId now).2.context =
      (getContext e.contextManager userId now).2 ∧
    (∀ h, dictFind e.handlers (processMessage e msg userId now).2.intent =
        some h →
      (processMessage e msg userId now).2.response =
        some (h msg (processMessage e msg userId now).2.entities
          (getContext e.contextManager userId now).2)) ∧
    (∀ stored,
      dictFind (processMessage e msg userId now).1.contextManager.contexts
          userId = some stored →
      dictFind stored "last_message" = some (Value.str msg) ∧
      dictFind stored "last_intent" =
        some (Value.str (processMessage e msg userId now).2.intent) ∧
      dictFind stored "entities" =
        some (Value.ents (processMessage e msg userId now).2.entities)) := by
  refine ⟨rfl, ?_, ?_⟩
  · intro h hf
    have hresp : (processMessage e msg userId now).2.response =
        (match dictFind e.handlers (processMessage e msg userId now).2.intent
          with
        | some h => some (h msg (processMessage e msg userId now).2.entities
            (getContext e.contextManager userId now).2)
        | none => none) := rfl
    rw [hresp, hf]
  · intro stored hst
    have hcm : (processMessage e msg userId now).1.contextManager =
        updateContext (getContext e.contextManager userId now).1 userId
          [("last_message", Value.str msg),
           ("last_intent",
             Value.str (processMessage e msg userId now).2.intent),
           ("entities",
             Value.ents (processMessage e msg userId now).2.entities)]
          true now := rfl
    rw [hcm, updateContext_find_self] at hst
    injection hst with hst2
    subst hst2
    have hupd : ∀ (cur : Ctx),
        dictUpdateMany cur
          [("last_message", Value.str msg),
           ("last_intent",
             Value.str (processMessage e msg userId now).2.intent),
           ("entities",
             Value.ents (processMessage e msg userId now).2.entities)] =
        dictInsert (dictInsert (dictInsert cur "last_message"
            (Value.str msg)) "last_intent"
            (Value.str (processMessage e msg userId now).2.intent)) "entities"
          (Value.ents (processMessage e msg userId now).2.entities) :=
      fun cur => rfl
    rw [hupd]
    refine ⟨?_, ?_, ?_⟩
    · rw [dictFind_dictInsert_ne _ _ _ _ (by decide),
        dictFind_dictInsert_ne _ _ _ _ (by decide)]
      exact dictFind_dictInsert_self _ _ _
    · rw [dictFind_dictInsert_ne _ _ _ _ (by decide)]
      exact dictFind_dictInsert_self _ _ _
    · exact dictFind_dictInsert_self _ _ _

/-- Engine for the C10 witness: empty classifier and extractor, one
handler under "unknown". -/
def snapEngine : ChatbotEngine :=
  registerIntentHandler
    ⟨mkIntentClassifier, ⟨[], []⟩, mkContextManager none, []⟩ "unknown"
    respondOk

/-- Witness for C10 on the concrete engine: the handler runs on the
pre-update snapshot and the merged values are visible in the stored
context afterwards. -/
theorem C10_context_snapshot_witness :
    (processMessage snapEngine "hi" "u" 0).2.response =
      some (respondOk "hi" (processMessage snapEngine "hi" "u" 0).2.entities
        (getContext snapEngine.contextManager "u" 0).2) ∧
    (dictFind
        [("last_message", Value.str "hi"),
         ("last_intent", Value.str "unknown"),
         ("entities", Value.ents [])] "last_message" =
      some (Value.str "hi") ∧
     dictFind
        [("last_message", Value.str "hi"),
         ("last_intent", Value.str "unknown"),
         ("entities", Value.ents [])] "last_intent" =
      some (Value.str (processMessage snapEngine "hi" "u" 0).2.intent) ∧
     dictFind
        [("last_message", Value.str "hi"),
         ("last_intent", Value.str "unknown"),
         ("entities", Value.ents [])] "entities" =
      some (Value.ents (processMessage snapEngine "hi" "u" 0).2.entities)) :=
  ⟨(C10_context_snapshot snapEngine "hi" "u" 0).2.1 respondOk rfl,
   (C10_context_snapshot snapEngine "hi" "u" 0).2.2
     [("last_message", Value.str "hi"),
      ("last_intent", Value.str "unknown"),
      ("entities", Value.ents [])] (by with_unfolding_all decide)⟩

end NlpChatbot
